import Mathlib

/-!
Shallow embedding of the resampling core of `tfx_addons/sampler/executor.py`
(label extraction, null/exempt filtering, per-class counting, target-size
selection, class-wise resampling, merging), together with proofs of the
specified properties.

Modelling conventions:
* A serialized `tf.train.Example` is modelled as a `Record`: a finite
  association list from feature names to `Feature`s, each holding an
  `int64_list` and a `bytes_list` (byte strings modelled as `String`).
  Protobuf map access on a missing key yields an empty `Feature`.
* A Python label value (`class_label` in `generate_elements`) is
  `Option LabelValue`: `none` is Python `None` (absent), otherwise an
  integer or a (decoded) string.
* The unseeded global pseudo-random generator of the `random` module is
  threaded explicitly as a function `rng : Nat → Nat` giving the raw draw
  at each step; `random.sample` and `random.choices` are deterministic in
  this oracle.  Properties are proved for every oracle.
* Python exceptions (`ValueError` from `random.sample`, `IndexError` from
  `random.choices` on an empty population) are modelled by `Option`:
  `none` is a raised error.
* Beam PCollections are modelled as lists; the pipeline stages
  (`Count.PerKey`, `Filter`, `GroupByKey`, `FlatMapTuple`, `Flatten`) are
  the corresponding list operations.
-/

namespace TfxSampler

/-- A label value as produced by `generate_elements`: either an integer from
the `int64_list` of the label feature, or a decoded string from its
`bytes_list`.  Python `None` (absent) is represented by `Option.none` at
use sites. -/
inductive LabelValue where
  | intLabel (n : Int)
  | strLabel (s : String)
deriving DecidableEq, Repr

/-- One feature of a `tf.train.Example`: an `int64_list` and a `bytes_list`
(byte strings modelled as decoded strings). -/
structure Feature where
  int64_list : List Int
  bytes_list : List String
deriving DecidableEq, Repr

/-- The empty feature returned by protobuf map access for a missing key. -/
def Feature.empty : Feature := ⟨[], []⟩

/-- A parsed `tf.train.Example`: an association list from feature names to
features. -/
structure Record where
  features : List (String × Feature)
deriving DecidableEq, Repr

/-- `parsed.features.feature[label]`: protobuf map access, returning the
empty feature when the key is missing (no error is raised). -/
def getFeature (r : Record) (name : String) : Feature :=
  match r.features.lookup name with
  | some f => f
  | none => Feature.empty

/-- `generate_elements(x, label)`: extract the class label from a record and
return the key-value pair `(class_label, parsed)`.  If the label feature's
`int64_list` is non-empty (Python truthiness of the repeated field) the
label is its first element; otherwise, if the `bytes_list` is non-empty,
the label is its first element decoded; otherwise the label is `None`. -/
def generate_elements (r : Record) (label : String) : Option LabelValue × Record :=
  let f := getFeature r label
  let class_label : Option LabelValue :=
    match f.int64_list with
    | n :: _ => some (LabelValue.intLabel n)
    | [] =>
      match f.bytes_list with
      | s :: _ => some (LabelValue.strLabel s)
      | [] => none
  (class_label, r)

/-- The label extracted from a record for a given label field name. -/
def labelOf (label : String) (r : Record) : Option LabelValue :=
  (generate_elements r label).1

/-- `item[0] == 0` in Python, where `item[0]` is a label value: only the
integer `0` compares equal to `0` (`None == 0` and `"s" == 0` are false). -/
def labelEqZero : Option LabelValue → Bool
  | some (LabelValue.intLabel n) => n == 0
  | _ => false

/-- `bool(item[0])` in Python: `None` is falsy, an integer is truthy iff
non-zero, a string is truthy iff non-empty. -/
def labelTruthy : Option LabelValue → Bool
  | none => false
  | some (LabelValue.intLabel n) => !(n == 0)
  | some (LabelValue.strLabel s) => !(s == "")

/-- `str(item[0])` in Python: `str(None) = "None"`, integers print in
decimal with a leading `-` when negative, strings print as themselves. -/
def labelStr : Option LabelValue → String
  | none => "None"
  | some (LabelValue.intLabel n) => toString n
  | some (LabelValue.strLabel s) => s

/-- `filter_null(item, keep_null, null_vals)` reduced to its decision on the
label `item[0]` (the function returns `item` — truthy, kept by
`beam.Filter` — exactly when the computed `keep` flag is true, and `None`
otherwise).  `null_vals` is the `keep_classes` list, with Python `None`
modelled by the empty list (both are falsy). -/
def filter_null (label : Option LabelValue) (keep_null : Bool) (null_vals : List String) : Bool :=
  let keep := if labelEqZero label then true else labelTruthy label
  let keep := if null_vals ≠ [] ∧ labelStr label ∈ null_vals ∧ keep = true then false else keep
  keep ^^ keep_null

/-- The three-way routing tag of the specification's Partitioner. -/
inductive Route where
  | NULL
  | EXEMPT
  | COUNTABLE
deriving DecidableEq, Repr

/-- The Partitioner policy exactly as the specification words it:
absent → NULL; else if the string representation of the label is a member
of the exempt set → EXEMPT; else → COUNTABLE.  (Spec-side definition, used
to compare the spec's policy with the code's `filter_null`.) -/
def specPartitionPolicy (label : Option LabelValue) (exempt : List String) : Route :=
  match label with
  | none => Route.NULL
  | some v =>
    if labelStr (some v) ∈ exempt then Route.EXEMPT else Route.COUNTABLE

/-- The Partitioner policy as the code actually implements it: a present
label that is Python-falsy and not the special-cased integer `0` — i.e.
the empty string — is routed NULL (passthrough) as well. -/
def amendedPartitionPolicy (label : Option LabelValue) (exempt : List String) : Route :=
  match label with
  | none => Route.NULL
  | some (LabelValue.strLabel s) =>
    if s = "" then Route.NULL
    else if s ∈ exempt then Route.EXEMPT else Route.COUNTABLE
  | some (LabelValue.intLabel n) =>
    if toString n ∈ exempt then Route.EXEMPT else Route.COUNTABLE

/-- The draw-without-replacement loop behind `random.sample(val, k)`: at
each step the oracle picks an index into the remaining pool, the element at
that index is emitted and removed from the pool. -/
def drawWR (rng : Nat → Nat) : Nat → List Record → Nat → List Record
  | _, _, 0 => []
  | t, pool, k + 1 =>
    if h : 0 < pool.length then
      pool.get ⟨rng t % pool.length, Nat.mod_lt _ h⟩ ::
        drawWR rng (t + 1) (pool.eraseIdx (rng t % pool.length)) k
    else []

/-- `random.sample(val, k)`: `k` elements chosen without replacement (at
distinct positions) from `val`; raises `ValueError` — modelled as `none` —
when `k` exceeds the population size. -/
def random_sample (rng : Nat → Nat) (val : List Record) (k : Nat) : Option (List Record) :=
  if k ≤ val.length then some (drawWR rng 0 val k) else none

/-- `random.choices(val, k=k)`: `k` independent draws with replacement from
`val`; raises `IndexError` — modelled as `none` — when the population is
empty and `k > 0`. -/
def random_choices (rng : Nat → Nat) (val : List Record) (k : Nat) : Option (List Record) :=
  if h : 0 < val.length then
    some ((List.range k).map fun t => val.get ⟨rng t % val.length, Nat.mod_lt _ h⟩)
  else if k = 0 then some [] else none

/-- `sample_data(_, val, undersample, side)`: ignores the group key, then
either `random.sample(val, side)` (undersample) or
`random.choices(val, k=side)` (oversample), yielding each drawn item. -/
def sample_data (rng : Nat → Nat) (_lbl : Option LabelValue) (val : List Record)
    (undersample : Bool) (side : Nat) : Option (List Record) :=
  if undersample then random_sample rng val side else random_choices rng val side

/-- `find_minimum(elements) = min(elements or [0])`. -/
def find_minimum : List Nat → Nat
  | [] => 0
  | x :: xs => xs.foldl min x

/-- `find_maximum(elements) = max(elements or [0])`. -/
def find_maximum : List Nat → Nat
  | [] => 0
  | x :: xs => xs.foldl max x

/-- `sample_fn = find_minimum if undersample else find_maximum`, applied by
`beam.CombineGlobally` to the multiset of per-class counts. -/
def selectTarget (undersample : Bool) (counts : List Nat) : Nat :=
  if undersample then find_minimum counts else find_maximum counts

/-- A label-keyed dataset, the output of `MapToLabel` (a K-V PCollection
modelled as a list of pairs). -/
abbrev Dataset := List (Option LabelValue × Record)

/-- The distinct keys of a dataset (in first-occurrence order; Beam imposes
no order, any enumeration of the distinct keys is a faithful model). -/
def distinctKeys (data : Dataset) : List (Option LabelValue) :=
  (data.map Prod.fst).dedup

/-- `beam.combiners.Count.PerKey()`: one `(key, count)` pair per distinct
key. -/
def countPerKey (data : Dataset) : List (Option LabelValue × Nat) :=
  (distinctKeys data).map fun k => (k, (data.map Prod.fst).count k)

/-- The per-class counts that survive `FilterNullCount` followed by
`Values` — the values of ClassCount, i.e. the counts of the countable
labels. -/
def classCounts (data : Dataset) (null_vals : List String) : List Nat :=
  (((countPerKey data).filter fun kv => filter_null kv.1 false null_vals).map Prod.snd)

/-- `beam.GroupByKey()`: one `(key, values)` pair per distinct key. -/
def groupByKey (data : Dataset) : List (Option LabelValue × List Record) :=
  (distinctKeys data).map fun k => (k, (data.filter fun x => x.1 == k).map Prod.snd)

/-- The groups that survive `FilterNull`: the countable classes with their
full record lists. -/
def countableGroups (data : Dataset) (null_vals : List String) :
    List (Option LabelValue × List Record) :=
  (groupByKey data).filter fun kv => filter_null kv.1 false null_vals

/-- `ExtractNull` followed by `NullValues`: the records whose label is kept
by `filter_null` with `keep_null=True` — the NULL and EXEMPT passthrough
bucket. -/
def nullValues (data : Dataset) (null_vals : List String) : List Record :=
  (data.filter fun x => filter_null x.1 true null_vals).map Prod.snd

/-- `beam.FlatMapTuple(sample_data, undersample, side=side)` over the
countable groups, keeping each group's key alongside its drawn records; an
error in any group's draw (`none`) fails the whole stage.  The oracle `R`
supplies an independent raw-draw stream per group key (group keys are
distinct). -/
def resampleGroups (R : Option LabelValue → Nat → Nat) :
    List (Option LabelValue × List Record) → Bool → Nat →
    Option (List (Option LabelValue × List Record))
  | [], _, _ => some []
  | kv :: rest, undersample, side =>
    match sample_data (R kv.1) kv.1 kv.2 undersample side,
        resampleGroups R rest undersample side with
    | some l, some gs => some ((kv.1, l) :: gs)
    | _, _ => none

/-- `sample_examples(data, keep_classes, undersample)`: compute the global
target size from the countable class counts, resample every countable
group to that size, and flatten the resampled records with the passthrough
bucket. -/
def sample_examples (R : Option LabelValue → Nat → Nat) (data : Dataset)
    (null_vals : List String) (undersample : Bool) : Option (List Record) :=
  let side := selectTarget undersample (classCounts data null_vals)
  match resampleGroups R (countableGroups data null_vals) undersample side with
  | some gs => some ((gs.map Prod.snd).flatten ++ nullValues data null_vals)
  | none => none

/-- `readData` (`read_tfexamples` minus the file I/O): label every raw
record with `generate_elements`. -/
def readData (raws : List Record) (label : String) : Dataset :=
  raws.map fun r => generate_elements r label

/-- `sample(...)` for one split, minus the file I/O at both ends: read and
label the records, then sample them. -/
def samplePipeline (R : Option LabelValue → Nat → Nat) (raws : List Record) (label : String)
    (null_vals : List String) (undersample : Bool) : Option (List Record) :=
  sample_examples R (readData raws label) null_vals undersample

/-- The TargetSize of a run, as computed inside `sample_examples`. -/
def targetSize (raws : List Record) (label : String) (null_vals : List String)
    (undersample : Bool) : Nat :=
  selectTarget undersample (classCounts (readData raws label) null_vals)

/-! ### Helper lemmas -/

/-- `keep ^= keep_null` flips the decision: the passthrough filter keeps
exactly what the countable filter drops. -/
lemma filter_null_true_eq_not (label : Option LabelValue) (nv : List String) :
    filter_null label true nv = !(filter_null label false nv) := by
  simp only [filter_null, Bool.xor_false, Bool.xor_true]

lemma foldl_min_le (xs : List Nat) (x : Nat) :
    xs.foldl min x ≤ x ∧ ∀ c ∈ xs, xs.foldl min x ≤ c := by
  induction xs generalizing x with
  | nil => simp
  | cons y ys ih =>
    refine ⟨le_trans (ih (min x y)).1 (min_le_left _ _), ?_⟩
    intro c hc
    rcases List.mem_cons.mp hc with rfl | hc
    · exact le_trans (ih (min x c)).1 (min_le_right _ _)
    · exact (ih (min x y)).2 c hc

lemma foldl_min_mem (xs : List Nat) (x : Nat) :
    xs.foldl min x = x ∨ xs.foldl min x ∈ xs := by
  induction xs generalizing x with
  | nil => simp
  | cons y ys ih =>
    rcases ih (min x y) with h | h
    · rcases min_choice x y with hm | hm
      · left; simpa [hm] using h
      · right; simp only [List.foldl_cons]
        exact List.mem_cons.mpr (Or.inl (h.trans hm))
    · right; exact List.mem_cons.mpr (Or.inr h)

lemma le_foldl_max (xs : List Nat) (x : Nat) :
    x ≤ xs.foldl max x ∧ ∀ c ∈ xs, c ≤ xs.foldl max x := by
  induction xs generalizing x with
  | nil => simp
  | cons y ys ih =>
    refine ⟨le_trans (le_max_left _ _) (ih (max x y)).1, ?_⟩
    intro c hc
    rcases List.mem_cons.mp hc with rfl | hc
    · exact le_trans (le_max_right _ _) (ih (max x c)).1
    · exact (ih (max x y)).2 c hc

lemma foldl_max_mem (xs : List Nat) (x : Nat) :
    xs.foldl max x = x ∨ xs.foldl max x ∈ xs := by
  induction xs generalizing x with
  | nil => simp
  | cons y ys ih =>
    rcases ih (max x y) with h | h
    · rcases max_choice x y with hm | hm
      · left; simpa [hm] using h
      · right; simp only [List.foldl_cons]
        exact List.mem_cons.mpr (Or.inl (h.trans hm))
    · right; exact List.mem_cons.mpr (Or.inr h)

lemma find_minimum_spec (counts : List Nat) (h : counts ≠ []) :
    find_minimum counts ∈ counts ∧ ∀ c ∈ counts, find_minimum counts ≤ c := by
  match counts with
  | [] => exact absurd rfl h
  | x :: xs =>
    constructor
    · rcases foldl_min_mem xs x with h1 | h1
      · exact List.mem_cons.mpr (Or.inl (by simpa [find_minimum] using h1))
      · exact List.mem_cons.mpr (Or.inr (by simpa [find_minimum] using h1))
    · intro c hc
      rcases List.mem_cons.mp hc with rfl | hc
      · exact (foldl_min_le xs c).1
      · exact (foldl_min_le xs x).2 c hc

lemma find_maximum_spec (counts : List Nat) (h : counts ≠ []) :
    find_maximum counts ∈ counts ∧ ∀ c ∈ counts, c ≤ find_maximum counts := by
  match counts with
  | [] => exact absurd rfl h
  | x :: xs =>
    constructor
    · rcases foldl_max_mem xs x with h1 | h1
      · exact List.mem_cons.mpr (Or.inl (by simpa [find_maximum] using h1))
      · exact List.mem_cons.mpr (Or.inr (by simpa [find_maximum] using h1))
    · intro c hc
      rcases List.mem_cons.mp hc with rfl | hc
      · exact (le_foldl_max xs c).1
      · exact (le_foldl_max xs x).2 c hc

lemma drawWR_length (rng : Nat → Nat) (k : Nat) :
    ∀ (t : Nat) (pool : List Record), k ≤ pool.length →
      (drawWR rng t pool k).length = k := by
  induction k with
  | zero => intro t pool _; rfl
  | succ k ih =>
    intro t pool hk
    have hpos : 0 < pool.length := lt_of_lt_of_le (Nat.succ_pos k) hk
    rw [drawWR, dif_pos hpos]
    have hlen : (pool.eraseIdx (rng t % pool.length)).length = pool.length - 1 :=
      List.length_eraseIdx_of_lt (Nat.mod_lt _ hpos)
    have hk2 : k ≤ (pool.eraseIdx (rng t % pool.length)).length := by
      rw [hlen]; omega
    simp [ih (t + 1) _ hk2]

lemma count_eraseIdx_get_add (l : List Record) (i : Nat) (h : i < l.length) (a : Record)
    (hga : l.get ⟨i, h⟩ = a) : (l.eraseIdx i).count a + 1 = l.count a := by
  induction l generalizing i with
  | nil => simp at h
  | cons b t ih =>
    cases i with
    | zero =>
      obtain rfl : b = a := hga
      simp [List.count_cons_self]
    | succ i =>
      have hi : i < t.length := by simpa using h
      have hga2 : t.get ⟨i, hi⟩ = a := hga
      simp only [List.eraseIdx_cons_succ]
      by_cases hba : a = b
      · subst hba
        rw [List.count_cons_self, List.count_cons_self, ih i hi hga2]
      · rw [List.count_cons_of_ne hba, List.count_cons_of_ne hba, ih i hi hga2]

lemma count_eraseIdx_get_ne (l : List Record) (i : Nat) (h : i < l.length) (a : Record)
    (hga : l.get ⟨i, h⟩ ≠ a) : (l.eraseIdx i).count a = l.count a := by
  induction l generalizing i with
  | nil => simp at h
  | cons b t ih =>
    cases i with
    | zero =>
      have hba : a ≠ b := fun hh => hga hh.symm
      simp only [List.eraseIdx_cons_zero]
      rw [List.count_cons_of_ne hba]
    | succ i =>
      have hi : i < t.length := by simpa using h
      have hga2 : t.get ⟨i, hi⟩ ≠ a := hga
      simp only [List.eraseIdx_cons_succ]
      by_cases hba : a = b
      · subst hba
        rw [List.count_cons_self, List.count_cons_self, ih i hi hga2]
      · rw [List.count_cons_of_ne hba, List.count_cons_of_ne hba, ih i hi hga2]

lemma drawWR_count (rng : Nat → Nat) (k : Nat) :
    ∀ (t : Nat) (pool : List Record) (a : Record),
      (drawWR rng t pool k).count a ≤ pool.count a := by
  induction k with
  | zero => intro t pool a; simp [drawWR]
  | succ k ih =>
    intro t pool a
    by_cases hpos : 0 < pool.length
    · rw [drawWR, dif_pos hpos]
      have hrec := ih (t + 1) (pool.eraseIdx (rng t % pool.length)) a
      by_cases hget : pool.get ⟨rng t % pool.length, Nat.mod_lt _ hpos⟩ = a
      · have hcnt := count_eraseIdx_get_add pool (rng t % pool.length) (Nat.mod_lt _ hpos) a hget
        rw [hget, List.count_cons_self]
        omega
      · have hcnt := count_eraseIdx_get_ne pool (rng t % pool.length) (Nat.mod_lt _ hpos) a hget
        have hne : a ≠ pool.get ⟨rng t % pool.length, Nat.mod_lt _ hpos⟩ := fun hh => hget hh.symm
        rw [List.count_cons_of_ne hne]
        omega
    · rw [drawWR, dif_neg hpos]; simp

lemma random_sample_some {rng : Nat → Nat} {val : List Record} {k : Nat} {l : List Record}
    (h : random_sample rng val k = some l) :
    l.length = k ∧ ∀ a : Record, l.count a ≤ val.count a := by
  by_cases hk : k ≤ val.length
  · rw [random_sample, if_pos hk] at h
    obtain rfl : drawWR rng 0 val k = l := Option.some.inj h
    exact ⟨drawWR_length rng k 0 val hk, fun a => drawWR_count rng k 0 val a⟩
  · rw [random_sample, if_neg hk] at h
    exact absurd h (by simp)

lemma random_choices_some {rng : Nat → Nat} {val : List Record} {k : Nat} {l : List Record}
    (h : random_choices rng val k = some l) :
    l.length = k ∧ ∀ x ∈ l, x ∈ val := by
  by_cases hpos : 0 < val.length
  · rw [random_choices, dif_pos hpos] at h
    obtain rfl := Option.some.inj h
    constructor
    · simp
    · intro x hx
      obtain ⟨t, _, rfl⟩ := List.mem_map.mp hx
      exact List.get_mem _ _ _
  · rw [random_choices, dif_neg hpos] at h
    by_cases hk : k = 0
    · rw [if_pos hk] at h
      obtain rfl := Option.some.inj h
      simp [hk]
    · rw [if_neg hk] at h
      exact absurd h (by simp)

lemma sample_data_some {rng : Nat → Nat} {lbl : Option LabelValue} {val : List Record}
    {us : Bool} {side : Nat} {l : List Record}
    (h : sample_data rng lbl val us side = some l) :
    l.length = side ∧ ∀ x ∈ l, x ∈ val := by
  cases us with
  | true =>
    rw [sample_data, if_pos rfl] at h
    obtain ⟨h1, h2⟩ := random_sample_some h
    refine ⟨h1, fun x hx => ?_⟩
    have := h2 x
    have hm : 0 < l.count x := List.count_pos_iff.mpr hx
    exact List.count_pos_iff.mp (lt_of_lt_of_le hm this)
  | false =>
    rw [sample_data, if_neg (by simp)] at h
    exact random_choices_some h

/-! ### Pipeline structure lemmas -/

lemma generate_elements_eq (r : Record) (lbl : String) :
    generate_elements r lbl = (labelOf lbl r, r) := rfl

lemma readData_mem {raws : List Record} {lbl : String} {x : Option LabelValue × Record}
    (hx : x ∈ readData raws lbl) : x.1 = labelOf lbl x.2 ∧ x.2 ∈ raws := by
  obtain ⟨r, hr, rfl⟩ := List.mem_map.mp hx
  exact ⟨rfl, hr⟩

lemma readData_map_fst (raws : List Record) (lbl : String) :
    (readData raws lbl).map Prod.fst = raws.map (labelOf lbl) := by
  rw [readData, List.map_map]
  rfl

lemma groupByKey_fst (data : Dataset) :
    (groupByKey data).map Prod.fst = distinctKeys data := by
  rw [groupByKey, List.map_map]
  exact List.map_id _

lemma mem_groupByKey {data : Dataset} {kv : Option LabelValue × List Record}
    (hkv : kv ∈ groupByKey data) :
    kv.1 ∈ distinctKeys data ∧ kv.2 = (data.filter fun x => x.1 == kv.1).map Prod.snd := by
  obtain ⟨k, hk, rfl⟩ := List.mem_map.mp hkv
  exact ⟨hk, rfl⟩

lemma groupByKey_snd_mem {data : Dataset} {kv : Option LabelValue × List Record}
    (hkv : kv ∈ groupByKey data) {r : Record} (hr : r ∈ kv.2) : (kv.1, r) ∈ data := by
  obtain ⟨-, hkv2⟩ := mem_groupByKey hkv
  rw [hkv2] at hr
  obtain ⟨x, hx, rfl⟩ := List.mem_map.mp hr
  obtain ⟨hxd, hxk⟩ := List.mem_filter.mp hx
  have h1 : x.1 = kv.1 := by simpa using hxk
  rw [← h1]
  simpa using hxd

lemma countableGroups_fst_nodup (data : Dataset) (nv : List String) :
    ((countableGroups data nv).map Prod.fst).Nodup := by
  have hsub : List.Sublist ((countableGroups data nv).map Prod.fst)
      ((groupByKey data).map Prod.fst) := (List.filter_sublist _).map Prod.fst
  rw [groupByKey_fst] at hsub
  exact (List.nodup_dedup _).sublist hsub

lemma countableGroups_hom (raws : List Record) (lbl : String) (nv : List String) :
    ∀ g ∈ countableGroups (readData raws lbl) nv, ∀ r ∈ g.2, labelOf lbl r = g.1 := by
  intro g hg r hr
  have hpair := groupByKey_snd_mem (List.mem_filter.mp hg).1 hr
  exact (readData_mem hpair).1.symm

lemma countableGroups_fst_iff (data : Dataset) (nv : List String) (k : Option LabelValue)
    (hk : filter_null k false nv = true) :
    k ∈ (countableGroups data nv).map Prod.fst ↔ k ∈ data.map Prod.fst := by
  constructor
  · intro h
    obtain ⟨kv, hkv, rfl⟩ := List.mem_map.mp h
    have h1 := (List.mem_filter.mp hkv).1
    exact List.mem_dedup.mp (mem_groupByKey h1).1
  · intro h
    have hdk : k ∈ distinctKeys data := List.mem_dedup.mpr h
    have h1 : (k, (data.filter fun x => x.1 == k).map Prod.snd) ∈ groupByKey data :=
      List.mem_map.mpr ⟨k, hdk, rfl⟩
    have h2 : (k, (data.filter fun x => x.1 == k).map Prod.snd) ∈ countableGroups data nv :=
      List.mem_filter.mpr ⟨h1, hk⟩
    exact List.mem_map.mpr ⟨_, h2, rfl⟩

lemma sample_examples_some {R : Option LabelValue → Nat → Nat} {data : Dataset}
    {nv : List String} {us : Bool} {out : List Record}
    (h : sample_examples R data nv us = some out) :
    ∃ gs, resampleGroups R (countableGroups data nv) us
        (selectTarget us (classCounts data nv)) = some gs ∧
      out = (gs.map Prod.snd).flatten ++ nullValues data nv := by
  rw [sample_examples] at h
  cases hg : resampleGroups R (countableGroups data nv) us
      (selectTarget us (classCounts data nv)) with
  | none => rw [hg] at h; exact absurd h (by simp)
  | some gs =>
    rw [hg] at h
    exact ⟨gs, rfl, (Option.some.inj h).symm⟩

lemma resampleGroups_mem_flatten {R : Option LabelValue → Nat → Nat}
    {groups gs : List (Option LabelValue × List Record)} {us : Bool} {side : Nat}
    (h : resampleGroups R groups us side = some gs) {x : Record}
    (hx : x ∈ (gs.map Prod.snd).flatten) : ∃ g ∈ groups, x ∈ g.2 := by
  induction groups generalizing gs with
  | nil =>
    rw [resampleGroups] at h
    obtain rfl := Option.some.inj h
    simp at hx
  | cons kv rest ih =>
    rw [resampleGroups] at h
    cases hs : sample_data (R kv.1) kv.1 kv.2 us side with
    | none => rw [hs] at h; exact absurd h (by simp)
    | some l =>
      cases hrest : resampleGroups R rest us side with
      | none => rw [hs, hrest] at h; exact absurd h (by simp)
      | some gs2 =>
        rw [hs, hrest] at h
        obtain rfl := Option.some.inj h
        rw [List.map_cons, List.flatten_cons] at hx
        rcases List.mem_append.mp hx with hx1 | hx1
        · obtain ⟨-, hmem⟩ := sample_data_some hs
          exact ⟨kv, List.mem_cons_self _ _, hmem x hx1⟩
        · obtain ⟨g, hg, hxg⟩ := ih hrest hx1
          exact ⟨g, List.mem_cons_of_mem _ hg, hxg⟩

lemma resampleGroups_countP_flatten (lbl : String) (k : Option LabelValue)
    (R : Option LabelValue → Nat → Nat) (us : Bool) (side : Nat) :
    ∀ (groups gs : List (Option LabelValue × List Record)),
      resampleGroups R groups us side = some gs →
      (groups.map Prod.fst).Nodup →
      (∀ g ∈ groups, ∀ r ∈ g.2, labelOf lbl r = g.1) →
      ((gs.map Prod.snd).flatten.countP fun r => labelOf lbl r == k)
        = if k ∈ groups.map Prod.fst then side else 0 := by
  intro groups
  induction groups with
  | nil =>
    intro gs h _ _
    rw [resampleGroups] at h
    obtain rfl := Option.some.inj h
    simp
  | cons kv rest ih =>
    intro gs h hnd hhom
    rw [resampleGroups] at h
    cases hs : sample_data (R kv.1) kv.1 kv.2 us side with
    | none => rw [hs] at h; exact absurd h (by simp)
    | some l =>
      cases hrest : resampleGroups R rest us side with
      | none => rw [hs, hrest] at h; exact absurd h (by simp)
      | some gs2 =>
        rw [hs, hrest] at h
        obtain rfl := Option.some.inj h
        obtain ⟨hlen, hmem⟩ := sample_data_some hs
        have hl : ∀ x ∈ l, labelOf lbl x = kv.1 := fun x hx =>
          hhom kv (List.mem_cons_self _ _) x (hmem x hx)
        rw [List.map_cons] at hnd
        have hnd1 := List.nodup_cons.mp hnd
        have hrec := ih gs2 hrest hnd1.2 fun g hg => hhom g (List.mem_cons_of_mem _ hg)
        rw [List.map_cons, List.flatten_cons, List.countP_append]
        by_cases hk : kv.1 = k
        · subst hk
          have hcl : (l.countP fun r => labelOf lbl r == kv.1) = l.length := by
            rw [List.countP_eq_length]
            intro x hx
            simp [hl x hx]
          rw [hcl, hlen, hrec, if_neg hnd1.1]
          simp
        · have hcl : (l.countP fun r => labelOf lbl r == k) = 0 := by
            rw [List.countP_eq_zero]
            intro x hx
            simp [hl x hx, hk]
          rw [hcl, hrec]
          have hne : ¬ k = kv.1 := fun hh => hk hh.symm
          by_cases hk2 : k ∈ rest.map Prod.fst
          · simp [List.mem_cons, hk2]
          · simp [List.mem_cons, hk2, hne]

/-! ### Passthrough-bucket lemmas -/

lemma nullValues_countP_zero {raws : List Record} {lbl : String} {nv : List String}
    {k : Option LabelValue} (hk : filter_null k false nv = true) :
    ((nullValues (readData raws lbl) nv).countP fun r => labelOf lbl r == k) = 0 := by
  rw [List.countP_eq_zero]
  intro r hr
  obtain ⟨x, hx, rfl⟩ := List.mem_map.mp hr
  obtain ⟨hxd, hxp⟩ := List.mem_filter.mp hx
  obtain ⟨hx1, -⟩ := readData_mem hxd
  intro hcon
  have hkeq : labelOf lbl x.2 = k := by simpa using hcon
  rw [hx1, hkeq, filter_null_true_eq_not, hk] at hxp
  simp at hxp

lemma nullValues_count {raws : List Record} {lbl : String} {nv : List String} (r : Record)
    (hr : filter_null (labelOf lbl r) true nv = true) :
    (nullValues (readData raws lbl) nv).count r = raws.count r := by
  induction raws with
  | nil => rfl
  | cons x raws ih =>
    by_cases hx : filter_null (labelOf lbl x) true nv = true
    · have hstep : nullValues (readData (x :: raws) lbl) nv
          = x :: nullValues (readData raws lbl) nv := by
        simp [nullValues, readData, generate_elements_eq, List.filter_cons, hx]
      rw [hstep]
      by_cases hxr : r = x
      · subst hxr
        rw [List.count_cons_self, List.count_cons_self, ih]
      · rw [List.count_cons_of_ne hxr, List.count_cons_of_ne hxr, ih]
    · have hne : r ≠ x := fun hh => hx (hh ▸ hr)
      have hstep : nullValues (readData (x :: raws) lbl) nv
          = nullValues (readData raws lbl) nv := by
        simp [nullValues, readData, generate_elements_eq, List.filter_cons, hx]
      rw [hstep, List.count_cons_of_ne hne, ih]

lemma resampled_count_zero {R : Option LabelValue → Nat → Nat} {raws : List Record}
    {lbl : String} {nv : List String} {us : Bool} {side : Nat}
    {gs : List (Option LabelValue × List Record)}
    (h : resampleGroups R (countableGroups (readData raws lbl) nv) us side = some gs)
    (r : Record) (hr : filter_null (labelOf lbl r) true nv = true) :
    (gs.map Prod.snd).flatten.count r = 0 := by
  rw [List.count_eq_zero]
  intro hmem
  obtain ⟨g, hg, hxg⟩ := resampleGroups_mem_flatten h hmem
  obtain ⟨hg1, hg2⟩ := List.mem_filter.mp hg
  have hpair := groupByKey_snd_mem hg1 hxg
  have h1 : g.1 = labelOf lbl r := (readData_mem hpair).1
  rw [h1] at hg2
  rw [filter_null_true_eq_not, hg2] at hr
  simp at hr

/-- A label that is absent, or whose string form is exempt, is kept by the
passthrough filter. -/
lemma filter_null_true_of_null_or_exempt {l : Option LabelValue} {nv : List String}
    (h : l = none ∨ labelStr l ∈ nv) : filter_null l true nv = true := by
  rcases h with rfl | hmem
  · simp [filter_null, labelEqZero, labelTruthy]
  · have hne : nv ≠ [] := List.ne_nil_of_mem hmem
    simp only [filter_null]
    by_cases hk0 : (if labelEqZero l = true then true else labelTruthy l) = true
    · rw [if_pos ⟨hne, hmem, hk0⟩]
      rfl
    · rw [if_neg fun hc => hk0 hc.2.2]
      have hfalse : (if labelEqZero l = true then true else labelTruthy l) = false := by
        cases hv : (if labelEqZero l = true then true else labelTruthy l) with
        | false => rfl
        | true => exact absurd hv hk0
      rw [hfalse]
      rfl

/-! ### Degenerate-input lemmas -/

lemma countableGroups_eq_nil {raws : List Record} {lbl : String} {nv : List String}
    (hall : ∀ r ∈ raws, filter_null (labelOf lbl r) false nv = false) :
    countableGroups (readData raws lbl) nv = [] := by
  rw [countableGroups, List.filter_eq_nil_iff]
  intro kv hkv
  have hk1 : kv.1 ∈ (readData raws lbl).map Prod.fst :=
    List.mem_dedup.mp (mem_groupByKey hkv).1
  rw [readData_map_fst] at hk1
  obtain ⟨r, hrr, hlab⟩ := List.mem_map.mp hk1
  rw [← hlab, hall r hrr]
  exact Bool.false_ne_true

lemma classCounts_eq_nil {raws : List Record} {lbl : String} {nv : List String}
    (hall : ∀ r ∈ raws, filter_null (labelOf lbl r) false nv = false) :
    classCounts (readData raws lbl) nv = [] := by
  rw [classCounts, List.map_eq_nil_iff, List.filter_eq_nil_iff]
  intro kv hkv
  obtain ⟨k, hk, rfl⟩ := List.mem_map.mp hkv
  have hk1 : k ∈ (readData raws lbl).map Prod.fst := List.mem_dedup.mp hk
  rw [readData_map_fst] at hk1
  obtain ⟨r, hrr, hlab⟩ := List.mem_map.mp hk1
  rw [← hlab, hall r hrr]
  exact Bool.false_ne_true

lemma nullValues_all {raws : List Record} {lbl : String} {nv : List String}
    (hall : ∀ r ∈ raws, filter_null (labelOf lbl r) false nv = false) :
    nullValues (readData raws lbl) nv = raws := by
  rw [nullValues]
  have hfil : (readData raws lbl).filter (fun x => filter_null x.1 true nv)
      = readData raws lbl := by
    rw [List.filter_eq_self]
    intro x hx
    obtain ⟨h1, h2⟩ := readData_mem hx
    rw [h1, filter_null_true_eq_not, hall x.2 h2]
    rfl
  rw [hfil, readData, List.map_map]
  exact List.map_id _

/-! ### Concrete example data (used by witnesses) -/

/-- A record with the integer label `n` in feature `"lbl"`. -/
def recInt (n : Int) : Record := ⟨[("lbl", ⟨[n], []⟩)]⟩

/-- A record with the string label `s` in feature `"lbl"`. -/
def recStr (s : String) : Record := ⟨[("lbl", ⟨[], [s]⟩)]⟩

/-- A record with no features at all (absent label). -/
def recNone : Record := ⟨[]⟩

/-- A constant random oracle. -/
def rngZero : Nat → Nat := fun _ => 0

/-- A constant per-group random oracle. -/
def RZero : Option LabelValue → Nat → Nat := fun _ _ => 0

/-! ### Claim theorems -/

/-- C2.  TargetSizeSelector: the selected TargetSize is `0` on the empty
ClassCount, the minimum of the counts in REDUCE (undersample) mode, and
the maximum of the counts in EXPAND (oversample) mode. -/
theorem target_size_selector (counts : List Nat) (h : counts ≠ []) :
    (∀ us : Bool, selectTarget us [] = 0) ∧
    (selectTarget true counts ∈ counts ∧ ∀ c ∈ counts, selectTarget true counts ≤ c) ∧
    (selectTarget false counts ∈ counts ∧ ∀ c ∈ counts, c ≤ selectTarget false counts) := by
  refine ⟨fun us => by cases us <;> rfl, ?_, ?_⟩
  · simpa [selectTarget] using find_minimum_spec counts h
  · simpa [selectTarget] using find_maximum_spec counts h

/-- Witness for C2 at the spec's example counts `{A:10, B:30, C:5}`. -/
theorem target_size_selector_witness :
    ([10, 30, 5] : List Nat) ≠ [] ∧
    ((∀ us : Bool, selectTarget us [] = 0) ∧
     (selectTarget true [10, 30, 5] ∈ ([10, 30, 5] : List Nat) ∧
       ∀ c ∈ ([10, 30, 5] : List Nat), selectTarget true [10, 30, 5] ≤ c) ∧
     (selectTarget false [10, 30, 5] ∈ ([10, 30, 5] : List Nat) ∧
       ∀ c ∈ ([10, 30, 5] : List Nat), c ≤ selectTarget false [10, 30, 5])) :=
  ⟨by decide, target_size_selector [10, 30, 5] (by decide)⟩

/-- C4.  REDUCE-mode resampling: when the requested size is at most the
population, `sample_data` succeeds with exactly `side` records drawn
without replacement — the multiplicity of every record in the output is at
most its multiplicity in the input, so no draw position is used twice. -/
theorem reduce_without_replacement (rng : Nat → Nat) (lbl : Option LabelValue)
    (val : List Record) (side : Nat) (h : side ≤ val.length) :
    ∃ l, sample_data rng lbl val true side = some l ∧ l.length = side ∧
      ∀ r : Record, l.count r ≤ val.count r := by
  refine ⟨drawWR rng 0 val side, ?_, drawWR_length rng side 0 val h,
    fun r => drawWR_count rng side 0 val r⟩
  rw [sample_data, if_pos rfl, random_sample, if_pos h]

/-- Witness for C4: draw one of two records. -/
theorem reduce_without_replacement_witness :
    1 ≤ ([recInt 1, recInt 2] : List Record).length ∧
    ∃ l, sample_data rngZero none [recInt 1, recInt 2] true 1 = some l ∧ l.length = 1 ∧
      ∀ r : Record, l.count r ≤ ([recInt 1, recInt 2] : List Record).count r :=
  ⟨by decide, reduce_without_replacement rngZero none [recInt 1, recInt 2] 1 (by decide)⟩

/-- C5.  EXPAND-mode resampling: on any non-empty population `sample_data`
succeeds with exactly `side` records drawn with replacement from the
population (no special-casing of any group), and whenever the population
is strictly smaller than `side` the output necessarily contains a
duplicate. -/
theorem expand_with_replacement (rng : Nat → Nat) (lbl : Option LabelValue)
    (val : List Record) (side : Nat) (h : val ≠ []) :
    ∃ l, sample_data rng lbl val false side = some l ∧ l.length = side ∧
      (∀ r ∈ l, r ∈ val) ∧ (val.length < side → ¬ l.Nodup) := by
  have hpos : 0 < val.length := List.length_pos.mpr h
  obtain ⟨l, hl⟩ : ∃ l, sample_data rng lbl val false side = some l := by
    rw [sample_data, if_neg (by simp), random_choices, dif_pos hpos]
    exact ⟨_, rfl⟩
  have hl2 : random_choices rng val side = some l := by
    rw [sample_data, if_neg (by simp)] at hl
    exact hl
  obtain ⟨hlen, hmem⟩ := random_choices_some hl2
  refine ⟨l, hl, hlen, hmem, ?_⟩
  intro hlt hnd
  have h1 : l.toFinset.card = side := by rw [List.toFinset_card_of_nodup hnd, hlen]
  have h2 : l.toFinset ⊆ val.toFinset := fun x hx =>
    List.mem_toFinset.mpr (hmem x (List.mem_toFinset.mp hx))
  have h3 := Finset.card_le_card h2
  have h4 := val.toFinset_card_le
  omega

/-- Witness for C5: two draws from a one-record population. -/
theorem expand_with_replacement_witness :
    ([recInt 1] : List Record) ≠ [] ∧
    ∃ l, sample_data rngZero none [recInt 1] false 2 = some l ∧ l.length = 2 ∧
      (∀ r ∈ l, r ∈ ([recInt 1] : List Record)) ∧
      (([recInt 1] : List Record).length < 2 → ¬ l.Nodup) :=
  ⟨by decide, expand_with_replacement rngZero none [recInt 1] 2 (by decide)⟩

/-- C8.  Over-request in REDUCE mode: requesting strictly more records than
the population holds makes `sample_data` fail (`random.sample` raises
`ValueError`, modelled as `none`) rather than silently truncate. -/
theorem reduce_over_request (rng : Nat → Nat) (lbl : Option LabelValue)
    (val : List Record) (side : Nat) (h : val.length < side) :
    sample_data rng lbl val true side = none := by
  rw [sample_data, if_pos rfl, random_sample, if_neg (by omega)]

/-- Witness for C8: request two records from a one-record population. -/
theorem reduce_over_request_witness :
    ([recInt 1] : List Record).length < 2 ∧
    sample_data rngZero none [recInt 1] true 2 = none :=
  ⟨by decide, reduce_over_request rngZero none [recInt 1] 2 (by decide)⟩

/-- C7.  LabelExtractor contract of `generate_elements`: the record passes
through unchanged; a non-empty `int64_list` in the label feature yields
its first element as an integer label; otherwise a non-empty `bytes_list`
yields its first element (decoded) as a string label; otherwise — in
particular for a missing field — the label is absent, with no error. -/
theorem label_extractor_contract (r : Record) (label : String) :
    (generate_elements r label).2 = r ∧
    (∀ n rest, (getFeature r label).int64_list = n :: rest →
      (generate_elements r label).1 = some (LabelValue.intLabel n)) ∧
    ((getFeature r label).int64_list = [] → ∀ s rest,
      (getFeature r label).bytes_list = s :: rest →
      (generate_elements r label).1 = some (LabelValue.strLabel s)) ∧
    ((getFeature r label).int64_list = [] → (getFeature r label).bytes_list = [] →
      (generate_elements r label).1 = none) ∧
    (r.features.lookup label = none → (generate_elements r label).1 = none) := by
  refine ⟨rfl, ?_, ?_, ?_, ?_⟩
  · intro n rest hint
    simp [generate_elements, hint]
  · intro hint s rest hbytes
    simp [generate_elements, hint, hbytes]
  · intro hint hbytes
    simp [generate_elements, hint, hbytes]
  · intro hlook
    have hfeat : getFeature r label = Feature.empty := by
      rw [getFeature, hlook]
    simp [generate_elements, hfeat, Feature.empty]

/-- Witness for C7: extract the integer label `7`. -/
theorem label_extractor_contract_witness :
    (getFeature (recInt 7) "lbl").int64_list = 7 :: [] ∧
    (generate_elements (recInt 7) "lbl").1 = some (LabelValue.intLabel 7) :=
  ⟨rfl, (label_extractor_contract (recInt 7) "lbl").2.1 7 [] rfl⟩

/-- C3 counterexample.  The spec's Partitioner policy says a present label
whose string form is not exempt is COUNTABLE, but `filter_null` drops a
record whose label is the (present) empty string: at label `""` with an
empty exempt set the code and the spec policy disagree. -/
theorem partitioner_policy_counterexample :
    ¬ (filter_null (some (LabelValue.strLabel "")) false []
        = (specPartitionPolicy (some (LabelValue.strLabel "")) [] == Route.COUNTABLE)) := by
  decide

/-- C3 (amended).  The Partitioner policy the code implements: absent
labels — and the present empty-string label, the only present value that
is Python-falsy without being the special-cased integer `0` — are routed
NULL; otherwise membership of the label's string form in the ExemptSet
routes EXEMPT; otherwise COUNTABLE.  `filter_null` keeps exactly the
COUNTABLE records (and, with `keep_null`, exactly the others); the integer
label `0` with `"0"` not exempt is COUNTABLE. -/
theorem partitioner_policy_amended (label : Option LabelValue) (nv : List String) :
    (filter_null label false nv = (amendedPartitionPolicy label nv == Route.COUNTABLE)) ∧
    (filter_null label true nv = !(amendedPartitionPolicy label nv == Route.COUNTABLE)) ∧
    (("0" : String) ∉ nv → filter_null (some (LabelValue.intLabel 0)) false nv = true) := by
  have main : ∀ lab : Option LabelValue,
      filter_null lab false nv = (amendedPartitionPolicy lab nv == Route.COUNTABLE) := by
    intro lab
    match lab with
    | none =>
      simp [filter_null, labelEqZero, labelTruthy, amendedPartitionPolicy]
    | some (LabelValue.intLabel n) =>
      by_cases hn : n = 0
      · subst hn
        by_cases hm : toString (0 : Int) ∈ nv
        · have hne : nv ≠ [] := List.ne_nil_of_mem hm
          simp [filter_null, labelEqZero, labelTruthy, labelStr, amendedPartitionPolicy,
            hm, hne]
        · simp [filter_null, labelEqZero, labelTruthy, labelStr, amendedPartitionPolicy, hm]
      · by_cases hm : toString n ∈ nv
        · have hne : nv ≠ [] := List.ne_nil_of_mem hm
          simp [filter_null, labelEqZero, labelTruthy, labelStr, amendedPartitionPolicy,
            hn, hm, hne]
        · simp [filter_null, labelEqZero, labelTruthy, labelStr, amendedPartitionPolicy,
            hn, hm]
    | some (LabelValue.strLabel s) =>
      by_cases hs : s = ""
      · simp [filter_null, labelEqZero, labelTruthy, labelStr, amendedPartitionPolicy, hs]
      · by_cases hm : s ∈ nv
        · have hne : nv ≠ [] := List.ne_nil_of_mem hm
          simp [filter_null, labelEqZero, labelTruthy, labelStr, amendedPartitionPolicy,
            hs, hm, hne]
        · simp [filter_null, labelEqZero, labelTruthy, labelStr, amendedPartitionPolicy,
            hs, hm]
  refine ⟨main label, ?_, ?_⟩
  · rw [filter_null_true_eq_not, main label]
  · intro h0
    have h00 : toString (0 : Int) = "0" := rfl
    rw [main (some (LabelValue.intLabel 0))]
    simp [amendedPartitionPolicy, h00, h0]

/-- Witness for C3's amended theorem: the integer label `0` with an empty
exempt set is kept as countable. -/
theorem partitioner_policy_amended_witness :
    (filter_null (some (LabelValue.intLabel 0)) false []
      = (amendedPartitionPolicy (some (LabelValue.intLabel 0)) [] == Route.COUNTABLE)) ∧
    (("0" : String) ∉ ([] : List String) ∧
      filter_null (some (LabelValue.intLabel 0)) false [] = true) :=
  ⟨(partitioner_policy_amended (some (LabelValue.intLabel 0)) []).1,
    by decide,
    (partitioner_policy_amended (some (LabelValue.intLabel 0)) []).2.2 (by decide)⟩

/-- C10.  A record whose extracted label is the present empty string is
Python-falsy and not the special-cased integer `0`, so `filter_null`
routes it to the passthrough bucket, not COUNTABLE: it is dropped by the
countable filter, kept by the passthrough filter, and no countable group
ever has the empty-string key. -/
theorem empty_string_label_passthrough (nv : List String) (data : Dataset) :
    filter_null (some (LabelValue.strLabel "")) false nv = false ∧
    filter_null (some (LabelValue.strLabel "")) true nv = true ∧
    ∀ kv ∈ countableGroups data nv, kv.1 ≠ some (LabelValue.strLabel "") := by
  have h1 : filter_null (some (LabelValue.strLabel "")) false nv = false := by
    simp [filter_null, labelEqZero, labelTruthy]
  refine ⟨h1, ?_, ?_⟩
  · rw [filter_null_true_eq_not, h1]
    rfl
  · intro kv hkv heq
    have hpred := (List.mem_filter.mp hkv).2
    rw [heq, h1] at hpred
    exact Bool.false_ne_true hpred

/-- C1 counterexample.  The claim takes "countable" to mean "not absent and
not in the ExemptSet".  A present empty-string label is neither absent nor
exempt, yet `filter_null` routes it to the passthrough bucket, so its
record count in the output is its input count, not TargetSize: with input
labels `{"": 2, "a": 1}`, the empty exempt set and REDUCE mode, TargetSize
is `1` but the output holds `2` records with label `""`. -/
theorem size_invariant_counterexample :
    targetSize [recStr "", recStr "", recStr "a"] "lbl" [] true = 1 ∧
    ∃ out, samplePipeline RZero [recStr "", recStr "", recStr "a"] "lbl" [] true = some out ∧
      some (LabelValue.strLabel "") ≠ (none : Option LabelValue) ∧
      labelStr (some (LabelValue.strLabel "")) ∉ ([] : List String) ∧
      (out.countP fun r => labelOf "lbl" r == some (LabelValue.strLabel "")) = 2 := by
  exact ⟨rfl, _, rfl, by decide, by decide, rfl⟩

/-- C1 (amended).  Size invariant for the labels the code actually counts:
for every label kept by the countable filter (not absent, not the
empty-string edge value, not exempt), the merged output holds exactly
TargetSize records with that label when the label occurs in the input and
none otherwise; and when no input label is countable, TargetSize is 0. -/
theorem size_invariant (R : Option LabelValue → Nat → Nat) (raws : List Record)
    (lbl : String) (nv : List String) (us : Bool) (out : List Record)
    (hout : samplePipeline R raws lbl nv us = some out)
    (k : Option LabelValue) (hk : filter_null k false nv = true) :
    ((out.countP fun r => labelOf lbl r == k)
      = if k ∈ raws.map (labelOf lbl) then targetSize raws lbl nv us else 0) ∧
    ((∀ r ∈ raws, filter_null (labelOf lbl r) false nv = false) →
      targetSize raws lbl nv us = 0) := by
  constructor
  · rw [samplePipeline] at hout
    obtain ⟨gs, hgs, rfl⟩ := sample_examples_some hout
    have hiff : (k ∈ (countableGroups (readData raws lbl) nv).map Prod.fst)
        = (k ∈ raws.map (labelOf lbl)) := by
      rw [← readData_map_fst]
      exact propext (countableGroups_fst_iff _ _ k hk)
    rw [List.countP_append,
      resampleGroups_countP_flatten lbl k R us _ _ gs hgs
        (countableGroups_fst_nodup _ _) (countableGroups_hom raws lbl nv),
      nullValues_countP_zero hk, Nat.add_zero]
    simp only [hiff]
    rfl
  · intro hall
    rw [targetSize, classCounts_eq_nil hall]
    cases us <;> rfl

/-- Witness for C1's amended theorem: input labels `{1: 1, 2: 2}`, REDUCE,
TargetSize 1, one output record labeled `2`. -/
theorem size_invariant_witness :
    samplePipeline RZero [recInt 1, recInt 2, recInt 2] "lbl" [] true
      = some [recInt 1, recInt 2] ∧
    filter_null (some (LabelValue.intLabel 2)) false [] = true ∧
    ((([recInt 1, recInt 2] : List Record).countP
        fun r => labelOf "lbl" r == some (LabelValue.intLabel 2))
      = if some (LabelValue.intLabel 2)
            ∈ ([recInt 1, recInt 2, recInt 2] : List Record).map (labelOf "lbl")
        then targetSize [recInt 1, recInt 2, recInt 2] "lbl" [] true else 0) ∧
    ((∀ r ∈ ([recInt 1, recInt 2, recInt 2] : List Record),
        filter_null (labelOf "lbl" r) false [] = false) →
      targetSize [recInt 1, recInt 2, recInt 2] "lbl" [] true = 0) :=
  ⟨rfl, rfl, size_invariant RZero [recInt 1, recInt 2, recInt 2] "lbl" [] true
    [recInt 1, recInt 2] rfl (some (LabelValue.intLabel 2)) rfl⟩

/-- C6.  Passthrough invariant: every record whose label is absent (NULL)
or whose label's string form is in the ExemptSet (EXEMPT) appears in the
merged output exactly as many times as in the input — the resampled part
contributes no copy of it and the passthrough branch preserves its
multiplicity exactly. -/
theorem passthrough_invariant (R : Option LabelValue → Nat → Nat) (raws : List Record)
    (lbl : String) (nv : List String) (us : Bool) (out : List Record)
    (hout : samplePipeline R raws lbl nv us = some out)
    (r : Record) (hr : labelOf lbl r = none ∨ labelStr (labelOf lbl r) ∈ nv) :
    out.count r = raws.count r := by
  have hr2 : filter_null (labelOf lbl r) true nv = true :=
    filter_null_true_of_null_or_exempt hr
  rw [samplePipeline] at hout
  obtain ⟨gs, hgs, rfl⟩ := sample_examples_some hout
  rw [List.count_append, resampled_count_zero hgs r hr2, Nat.zero_add,
    nullValues_count r hr2]

/-- Witness for C6: a NULL-labeled record passes through a run with an
exempt class. -/
theorem passthrough_invariant_witness :
    samplePipeline RZero [recNone, recStr "x"] "lbl" ["x"] true
      = some [recNone, recStr "x"] ∧
    (labelOf "lbl" recNone = none ∨ labelStr (labelOf "lbl" recNone) ∈ (["x"] : List String)) ∧
    ([recNone, recStr "x"] : List Record).count recNone
      = ([recNone, recStr "x"] : List Record).count recNone :=
  ⟨rfl, Or.inl rfl, passthrough_invariant RZero [recNone, recStr "x"] "lbl" ["x"] true
    [recNone, recStr "x"] rfl recNone (Or.inl rfl)⟩

/-- C9.  Degenerate case: when every input record is NULL-labeled or
EXEMPT-labeled, ClassCount (the countable counts) is empty, TargetSize is
`0`, and the merged output is the input, unchanged. -/
theorem degenerate_case (R : Option LabelValue → Nat → Nat) (raws : List Record)
    (lbl : String) (nv : List String) (us : Bool)
    (hall : ∀ r ∈ raws, labelOf lbl r = none ∨ labelStr (labelOf lbl r) ∈ nv) :
    classCounts (readData raws lbl) nv = [] ∧
    targetSize raws lbl nv us = 0 ∧
    samplePipeline R raws lbl nv us = some raws := by
  have hall2 : ∀ r ∈ raws, filter_null (labelOf lbl r) false nv = false := by
    intro r hrr
    have hpass := filter_null_true_of_null_or_exempt (hall r hrr)
    rw [filter_null_true_eq_not] at hpass
    cases hx : filter_null (labelOf lbl r) false nv with
    | false => rfl
    | true => rw [hx] at hpass; exact absurd hpass (by simp)
  refine ⟨classCounts_eq_nil hall2, ?_, ?_⟩
  · rw [targetSize, classCounts_eq_nil hall2]
    cases us <;> rfl
  · simp only [samplePipeline, sample_examples]
    rw [countableGroups_eq_nil hall2, resampleGroups]
    simp [nullValues_all hall2]

/-- Witness for C9: one NULL record and one exempt record come back
unchanged with TargetSize 0. -/
theorem degenerate_case_witness :
    (∀ r ∈ ([recNone, recStr "x"] : List Record),
      labelOf "lbl" r = none ∨ labelStr (labelOf "lbl" r) ∈ (["x"] : List String)) ∧
    (classCounts (readData [recNone, recStr "x"] "lbl") ["x"] = [] ∧
     targetSize [recNone, recStr "x"] "lbl" ["x"] true = 0 ∧
     samplePipeline RZero [recNone, recStr "x"] "lbl" ["x"] true
       = some [recNone, recStr "x"]) :=
  ⟨by decide, degenerate_case RZero [recNone, recStr "x"] "lbl" ["x"] true (by decide)⟩

end TfxSampler
